import Mathlib

/-! Verification of the lzma-rs header codec (`src/common/lzma.rs`) and the
literal-only "dumb" encoder (`src/encode/dumbencoder.rs`).

Bytes are modelled as natural numbers below 256, byte streams as `List Nat`.
Fallible reads return `Except Error`.  The encoder is modelled by the trace
of bit decisions it feeds to the range coder: each call to
`rangecoder.encode_bit(&mut p, bit)` is recorded as a `Decision` naming the
probability cell `p` and the bit value. -/

namespace Lzma

/-- Variants of `error::Error` reachable from `read_header`:
`HeaderTooShort` (wrapping an io error in the source) and `LzmaError` with a
message. -/
inductive Error where
  | HeaderTooShort : Error
  | LzmaError : String → Error
deriving DecidableEq

/-- LZMA "lclppb" decompression properties (`LzmaProperties`). -/
structure LzmaProperties where
  lc : Nat
  lp : Nat
  pb : Nat
deriving DecidableEq

/-- Model of `LzmaProperties::validate`: `true` iff all three asserts pass
(`lc <= 8`, `lp <= 4`, `pb <= 4`). -/
def LzmaProperties.validate (p : LzmaProperties) : Bool :=
  decide (p.lc ≤ 8) && decide (p.lp ≤ 4) && decide (p.pb ≤ 4)

/-- LZMA decompression parameters (`LzmaParams`). -/
structure LzmaParams where
  properties : LzmaProperties
  dict_size : Nat
  unpacked_size : Option Nat
deriving DecidableEq

/-- The `decompress::UnpackedSize` policy consumed by `read_header`. -/
inductive Decompress.UnpackedSize where
  | ReadFromHeader
  | ReadHeaderButUseProvided (x : Option Nat)
  | UseProvided (x : Option Nat)

instance {ε α : Type} [DecidableEq ε] [DecidableEq α] : DecidableEq (Except ε α) :=
  fun x y =>
    match x, y with
    | .error a, .error b =>
      if h : a = b then .isTrue (h ▸ rfl) else .isFalse fun hh => h (Except.error.inj hh)
    | .ok a, .ok b =>
      if h : a = b then .isTrue (h ▸ rfl) else .isFalse fun hh => h (Except.ok.inj hh)
    | .error _, .ok _ => .isFalse Except.noConfusion
    | .ok _, .error _ => .isFalse Except.noConfusion

/-- Little-endian serialization of a `u32` (`write_u32::<LittleEndian>`). -/
def u32le (n : Nat) : List Nat :=
  [n % 256, n / 256 % 256, n / 65536 % 256, n / 16777216 % 256]

/-- Little-endian serialization of a `u64` (`write_u64::<LittleEndian>`). -/
def u64le (n : Nat) : List Nat :=
  [n % 256, n / 256 % 256, n / 65536 % 256, n / 16777216 % 256,
   n / 4294967296 % 256, n / 1099511627776 % 256,
   n / 281474976710656 % 256, n / 72057594037927936 % 256]

/-- Model of `read_u8` on a byte list: fails like the source's
`map_err(HeaderTooShort)` when the input is exhausted. -/
def readU8 : List Nat → Except Error (Nat × List Nat)
  | [] => .error .HeaderTooShort
  | b :: rest => .ok (b, rest)

/-- Model of `read_u32::<LittleEndian>`: consumes four bytes. -/
def readU32le : List Nat → Except Error (Nat × List Nat)
  | b0 :: b1 :: b2 :: b3 :: rest =>
      .ok (b0 + 256 * b1 + 65536 * b2 + 16777216 * b3, rest)
  | _ => .error .HeaderTooShort

/-- Model of `read_u64::<LittleEndian>`: consumes eight bytes. -/
def readU64le : List Nat → Except Error (Nat × List Nat)
  | b0 :: b1 :: b2 :: b3 :: b4 :: b5 :: b6 :: b7 :: rest =>
      .ok (b0 + 256 * b1 + 65536 * b2 + 16777216 * b3 + 4294967296 * b4
            + 1099511627776 * b5 + 281474976710656 * b6
            + 72057594037927936 * b7, rest)
  | _ => .error .HeaderTooShort

/-- Model of `LzmaParams::write_header`: one properties byte
`(lc + 9*(lp + 5*pb)) as u8`, four dict-size bytes, then the eight size
bytes only when `unpacked_size` is `Some` (the `None` arm writes nothing). -/
def LzmaParams.write_header (p : LzmaParams) : List Nat :=
  let props := (p.properties.lc + 9 * (p.properties.lp + 5 * p.properties.pb)) % 256
  props :: u32le p.dict_size ++
    (match p.unpacked_size with
      | some size => u64le size
      | none => [])

/-- Model of `LzmaParams::read_header`: properties byte (rejected with
`LzmaError` when `>= 225`, else decomposed by mod/div 9 then 5), little-endian
dict size clamped up to `0x1000`, then the unpacked-size field per policy. -/
def LzmaParams.read_header (input : List Nat) (options : Decompress.UnpackedSize) :
    Except Error LzmaParams :=
  match readU8 input with
  | .error e => .error e
  | .ok (props, input) =>
    if props ≥ 225 then
      .error (.LzmaError ("LZMA header invalid properties: " ++ toString props
        ++ " must be < 225"))
    else
      let lc := props % 9
      let lp := props / 9 % 5
      let pb := props / 9 / 5
      match readU32le input with
      | .error e => .error e
      | .ok (dict_size_provided, input) =>
        let dict_size := if dict_size_provided < 4096 then 4096 else dict_size_provided
        match options with
        | .ReadFromHeader =>
          match readU64le input with
          | .error e => .error e
          | .ok (unpacked_size_provided, _) =>
            let unpacked_size : Option Nat :=
              if unpacked_size_provided = 18446744073709551615 then none
              else some unpacked_size_provided
            .ok ⟨⟨lc, lp, pb⟩, dict_size, unpacked_size⟩
        | .ReadHeaderButUseProvided x =>
          match readU64le input with
          | .error e => .error e
          | .ok _ => .ok ⟨⟨lc, lp, pb⟩, dict_size, x⟩
        | .UseProvided x => .ok ⟨⟨lc, lp, pb⟩, dict_size, x⟩

/-- Number of header bytes `read_header` demands under a policy: 1 properties
byte + 4 dict bytes, plus 8 size bytes under the header-inclusive policies. -/
def requiredHeaderLen : Decompress.UnpackedSize → Nat
  | .ReadFromHeader => 13
  | .ReadHeaderButUseProvided _ => 13
  | .UseProvided _ => 5

/-- The `compress::UnpackedSize` policy held by the encoder. -/
inductive Compress.UnpackedSize where
  | WriteToHeader (x : Option Nat)
  | SkipWritingToHeader

/-- A probability cell passed to `rangecoder.encode_bit`: an adaptive
`is_match[i]` cell, an adaptive `literal_probs[state][idx]` cell, or the
throwaway non-adaptive `&mut 0x400` temporary. -/
inductive ProbRef where
  | isMatch (i : Nat)
  | literal (state : Nat) (idx : Nat)
  | throwaway
deriving DecidableEq

/-- One call to `rangecoder.encode_bit`: the cell it adapts and the bit. -/
structure Decision where
  ref : ProbRef
  bit : Bool
deriving DecidableEq

namespace Encoder

/-- The loop body of `Encoder::encode_literal`: `n` iterations remain of
`for i in 0..8`, with `i = 8 - n` and the current tree node `result`.
Each step codes bit `(byte >> (7 - i)) & 1` against `probs[result]` and
updates `result = (result << 1) ^ bit`. -/
def literalLoop (lit_state byte : Nat) : Nat → Nat → List Decision
  | 0, _ => []
  | n + 1, result =>
    let i := 8 - (n + 1)
    let bit : Bool := ((byte >>> (7 - i)) &&& 1) != 0
    ⟨.literal lit_state result, bit⟩ ::
      literalLoop lit_state byte n ((result <<< 1) ^^^ bit.toNat)

/-- Model of `Encoder::encode_literal`: selects the tree
`literal_probs[prev_byte >> 5]` and walks it from node 1 over the byte's
eight bits, most significant first. -/
def encode_literal (byte prev_byte : Nat) : List Decision :=
  literalLoop (prev_byte >>> 5) byte 8 1

/-- The `for (out_len, byte)` loop of `Encoder::process`.  `out_len` is the
enumeration index of the next byte, `input_len` the value of the source's
`input_len` variable so far (0 until the loop body first runs).  Returns the
final `input_len` together with the emitted decisions. -/
def processLoop (prev_byte out_len input_len : Nat) :
    List Nat → Nat × List Decision
  | [] => (input_len, [])
  | byte :: rest =>
    let pos_state := out_len &&& 3
    let r := processLoop byte (out_len + 1) out_len rest
    (r.1, (⟨.isMatch pos_state, false⟩ :: encode_literal byte prev_byte) ++ r.2)

/-- Model of `Encoder::finish` up to the final range-coder flush: the
end-of-stream marker decisions, emitted only under `WriteToHeader(None)`. -/
def finish (unpacked : Compress.UnpackedSize) (input_len : Nat) : List Decision :=
  match unpacked with
  | .SkipWritingToHeader => []
  | .WriteToHeader (some _) => []
  | .WriteToHeader none =>
    let pos_state := input_len &&& 3
    ⟨.isMatch pos_state, true⟩ ::
      ⟨.throwaway, false⟩ ::
      (List.replicate 4 ⟨.throwaway, false⟩ ++
        List.replicate 6 ⟨.throwaway, true⟩ ++
        List.replicate 30 ⟨.throwaway, true⟩)

/-- Model of `Encoder::process`: the literal loop over the input followed by
`finish(input_len + 1)`. -/
def process (unpacked : Compress.UnpackedSize) (input : List Nat) : List Decision :=
  let r := processLoop 0 0 0 input
  r.2 ++ finish unpacked (r.1 + 1)

end Encoder

/-- Bounds required for the encoder's array accesses to be in range:
`is_match` has 4 cells, there are 8 literal trees of `0x300` cells each and
the tree walk only touches nodes `1..=255`. -/
def Decision.inBounds : Decision → Bool
  | ⟨.isMatch i, _⟩ => decide (i < 4)
  | ⟨.literal s i, _⟩ => decide (s < 8) && decide (1 ≤ i) && decide (i ≤ 255)
  | ⟨.throwaway, _⟩ => true

/-- Following the spec's words for the literal tree walk: start at node
index 1, code each bit against `probs[index]`, update
`index = (index <<< 1) ||| bit`. -/
def specLiteralWalk (lit_state byte : Nat) : Nat → Nat → List Decision
  | 0, _ => []
  | n + 1, index =>
    let i := 8 - (n + 1)
    let bit : Bool := ((byte >>> (7 - i)) &&& 1) != 0
    ⟨.literal lit_state index, bit⟩ ::
      specLiteralWalk lit_state byte n ((index <<< 1) ||| bit.toNat)

/-- Following the claim's words for the literal stream: for the byte at
position `i`, first a `false` bit against `is_match[i &&& 3]`, then the walk
of the tree selected by `lit_state = prev_byte >>> 5`, where `prev_byte` is
the previous input byte and 0 at stream start. -/
def specLiteralTrace : List Nat → Nat → Nat → List Decision
  | [], _, _ => []
  | byte :: rest, i, prev =>
    (⟨.isMatch (i &&& 3), false⟩ :: specLiteralWalk (prev >>> 5) byte 8 1) ++
      specLiteralTrace rest (i + 1) byte

theorem shiftLeft_one_xor_toNat (i : Nat) (b : Bool) :
    (i <<< 1) ^^^ b.toNat = 2 * i + b.toNat := by
  cases b
  · simp [Nat.shiftLeft_eq, Nat.mul_comm]
  · have h1 : i <<< 1 = Nat.bit false i := by
      simp [Nat.bit, Nat.shiftLeft_eq, Nat.mul_comm]
    have h2 : (true : Bool).toNat = Nat.bit true 0 := rfl
    rw [h1, h2, Nat.xor_bit]
    simp [Nat.bit]

theorem shiftLeft_one_or_toNat (i : Nat) (b : Bool) :
    (i <<< 1) ||| b.toNat = 2 * i + b.toNat := by
  cases b
  · simp [Nat.shiftLeft_eq, Nat.mul_comm]
  · have h1 : i <<< 1 = Nat.bit false i := by
      simp [Nat.bit, Nat.shiftLeft_eq, Nat.mul_comm]
    have h2 : (true : Bool).toNat = Nat.bit true 0 := rfl
    rw [h1, h2, Nat.lor_bit]
    simp [Nat.bit]

theorem literalLoop_eq_specWalk (ls byte : Nat) :
    ∀ n idx, Encoder.literalLoop ls byte n idx = specLiteralWalk ls byte n idx := by
  intro n
  induction n with
  | zero => intro idx; rfl
  | succ n ih =>
    intro idx
    simp only [Encoder.literalLoop, specLiteralWalk, shiftLeft_one_xor_toNat,
      shiftLeft_one_or_toNat]
    exact congrArg _ (ih _)

theorem processLoop_trace_eq_specTrace :
    ∀ (l : List Nat) (prev k j : Nat),
      (Encoder.processLoop prev k j l).2 = specLiteralTrace l k prev := by
  intro l
  induction l with
  | nil => intro prev k j; rfl
  | cons b rest ih =>
    intro prev k j
    simp only [Encoder.processLoop, specLiteralTrace, Encoder.encode_literal,
      literalLoop_eq_specWalk, ih]

/-- C4: for every input byte sequence, the encoder's literal pass encodes,
for the byte at position `i`, a `false` bit against `is_match[i &&& 3]` and
then the byte's eight bits, most significant first, walking the literal
tree from node index 1 with update `index = (index <<< 1) ||| bit`, the
tree being selected by `lit_state = prev_byte >>> 5` with `prev_byte` the
previous input byte and 0 at stream start.  Stated as: the trace of
`Encoder::process` (with no end marker) is exactly the spec-worded trace. -/
theorem literal_encoding_follows_spec (input : List Nat) :
    Encoder.process .SkipWritingToHeader input = specLiteralTrace input 0 0 := by
  simp only [Encoder.process, Encoder.finish, List.append_nil]
  exact processLoop_trace_eq_specTrace input 0 0 0

/-- C2 counterexample: the end-of-stream pattern comprises 42 range-coder
decisions, not 41 as the claim counts; at the empty input the whole trace
is the marker and its length is 42. -/
theorem eos_marker_count_cex :
    (Encoder.process (.WriteToHeader none) []).length = 42 ∧
      ¬(Encoder.process (.WriteToHeader none) []).length = 41 := by decide

/-- C2 amended: encoding with unknown unpacked size appends, after the
final literal, exactly one adaptive `is_match` bit `true`, one non-adaptive
bit `false` (new distance), four non-adaptive `false` bits (minimal length
class), six non-adaptive `true` bits (distance slot 63) and thirty
non-adaptive `true` bits (direct bits of distance `0xFFFF_FFFF`) — 42
decisions in total — and nothing else before flushing. -/
theorem eos_marker_exact (input : List Nat) :
    ∃ pos,
      Encoder.process (.WriteToHeader none) input =
        Encoder.process .SkipWritingToHeader input ++
          (⟨.isMatch pos, true⟩ :: ⟨.throwaway, false⟩ ::
            (List.replicate 4 ⟨.throwaway, false⟩ ++
              List.replicate 6 ⟨.throwaway, true⟩ ++
              List.replicate 30 ⟨.throwaway, true⟩)) ∧
      (Encoder.process (.WriteToHeader none) input).length =
        (Encoder.process .SkipWritingToHeader input).length + 42 := by
  refine ⟨((Encoder.processLoop 0 0 0 input).1 + 1) &&& 3, ?_, ?_⟩
  · simp [Encoder.process, Encoder.finish]
  · simp [Encoder.process, Encoder.finish]

/-- C3 at the failing input: for the empty input the end-of-stream
`is_match = true` decision is encoded against cell index 1 (because
`process` calls `finish(input_len + 1)` with `input_len` never updated),
not against index `0 &&& 3 = 0` as the claim requires. -/
theorem eos_pos_state_empty_input :
    (Encoder.process (.WriteToHeader none) []).head? = some ⟨.isMatch 1, true⟩ ∧
      ¬(Encoder.process (.WriteToHeader none) []).head? = some ⟨.isMatch 0, true⟩ := by
  decide

theorem and_three_lt (n : Nat) : n &&& 3 < 4 := by
  have h : n &&& 3 = n % 4 := by
    have h3 : (3 : Nat) = 2 ^ 2 - 1 := rfl
    rw [h3, Nat.and_pow_two_sub_one_eq_mod]
  omega

theorem literalLoop_inBounds (ls byte : Nat) (hls : ls < 8) :
    ∀ n idx, 1 ≤ idx → (idx + 1) * 2 ^ n ≤ 512 →
      ∀ d ∈ Encoder.literalLoop ls byte n idx, d.inBounds = true := by
  intro n
  induction n with
  | zero =>
    intro idx _ _ d hd
    simp [Encoder.literalLoop] at hd
  | succ n ih =>
    intro idx h1 h2 d hd
    simp only [Encoder.literalLoop, List.mem_cons] at hd
    have hps : (idx + 1) * 2 ^ (n + 1) = (idx + 1) * 2 * 2 ^ n := by
      rw [Nat.pow_succ]; ring
    rcases hd with rfl | hd
    · have hone : 1 ≤ 2 ^ n := Nat.one_le_two_pow
      have hmul : (idx + 1) * 2 * 1 ≤ (idx + 1) * 2 * 2 ^ n :=
        Nat.mul_le_mul_left _ hone
      have hidx : idx ≤ 255 := by
        rw [← hps] at hmul
        omega
      simp [Decision.inBounds, hls, h1, hidx]
    · refine ih _ ?_ ?_ d hd
      · rw [shiftLeft_one_xor_toNat]; omega
      · rw [shiftLeft_one_xor_toNat]
        have ht : (((byte >>> (7 - (8 - (n + 1)))) &&& 1) != 0).toNat < 2 :=
          Bool.toNat_lt _
        have hstep : 2 * idx + (((byte >>> (7 - (8 - (n + 1)))) &&& 1) != 0).toNat + 1
            ≤ (idx + 1) * 2 := by omega
        calc (2 * idx + (((byte >>> (7 - (8 - (n + 1)))) &&& 1) != 0).toNat + 1) * 2 ^ n
            ≤ (idx + 1) * 2 * 2 ^ n := Nat.mul_le_mul_right _ hstep
          _ = (idx + 1) * 2 ^ (n + 1) := hps.symm
          _ ≤ 512 := h2

theorem encode_literal_inBounds (byte prev : Nat) (hprev : prev < 256) :
    ∀ d ∈ Encoder.encode_literal byte prev, d.inBounds = true := by
  have hls : prev >>> 5 < 8 := by
    rw [Nat.shiftRight_eq_div_pow]
    omega
  exact fun d hd =>
    literalLoop_inBounds _ byte hls 8 1 (by omega) (by norm_num) d hd

theorem processLoop_inBounds :
    ∀ (l : List Nat) (prev k j : Nat), prev < 256 → (∀ b ∈ l, b < 256) →
      ∀ d ∈ (Encoder.processLoop prev k j l).2, d.inBounds = true := by
  intro l
  induction l with
  | nil =>
    intro prev k j _ _ d hd
    simp [Encoder.processLoop] at hd
  | cons b rest ih =>
    intro prev k j hprev hl d hd
    simp only [Encoder.processLoop, List.cons_append, List.mem_cons,
      List.mem_append] at hd
    rcases hd with rfl | hd | hd
    · simp only [Decision.inBounds, decide_eq_true_eq]
      exact and_three_lt k
    · exact encode_literal_inBounds b prev hprev d hd
    · exact ih b (k + 1) k (hl b (by simp)) (fun x hx => hl x (by simp [hx])) d hd

theorem finish_inBounds (u : Compress.UnpackedSize) (n : Nat) :
    ∀ d ∈ Encoder.finish u n, d.inBounds = true := by
  intro d hd
  cases u with
  | SkipWritingToHeader => simp [Encoder.finish] at hd
  | WriteToHeader x =>
    cases x with
    | some _ => simp [Encoder.finish] at hd
    | none =>
      simp only [Encoder.finish, List.mem_cons] at hd
      rcases hd with rfl | rfl | hd
      · simp only [Decision.inBounds, decide_eq_true_eq]
        exact and_three_lt n
      · rfl
      · have hall : ((List.replicate 4 (⟨.throwaway, false⟩ : Decision) ++
            List.replicate 6 (⟨.throwaway, true⟩ : Decision) ++
            List.replicate 30 (⟨.throwaway, true⟩ : Decision)).all Decision.inBounds)
            = true := by
          decide
        rw [List.all_eq_true] at hall
        exact hall d hd

/-- C10: every array access the encoder performs is in bounds for every
input of bytes: every `is_match` decision uses an index below 4, every
literal decision uses a tree index below 8 and a node index in `1..=255`
(below the `0x300` cells per tree). -/
theorem encoder_accesses_inBounds (u : Compress.UnpackedSize) (input : List Nat)
    (h : ∀ b ∈ input, b < 256) :
    ∀ d ∈ Encoder.process u input, d.inBounds = true := by
  intro d hd
  simp only [Encoder.process, List.mem_append] at hd
  rcases hd with hd | hd
  · exact processLoop_inBounds input 0 0 0 (by omega) h d hd
  · exact finish_inBounds u _ d hd

/-- C1 counterexample: a valid parameter set with `unpacked_size = None`
does not round-trip under `ReadFromHeader` — `write_header` omits the size
field entirely, so `read_header` fails with the header-too-short error
instead of returning the parameters. -/
theorem header_roundtrip_none_cex :
    LzmaParams.read_header
        (LzmaParams.write_header ⟨⟨0, 0, 0⟩, 4096, none⟩) .ReadFromHeader
      = .error .HeaderTooShort ∧
    ¬(LzmaParams.read_header
        (LzmaParams.write_header ⟨⟨0, 0, 0⟩, 4096, none⟩) .ReadFromHeader
      = .ok ⟨⟨0, 0, 0⟩, 4096, none⟩) := by decide

/-- C1 amended: for every valid parameter set (`lc ≤ 8`, `lp ≤ 4`,
`pb ≤ 4`, `dict_size` a `u32`) with a present `unpacked_size = Some v`
(`v` a `u64`), reading back the written header under `ReadFromHeader`
succeeds and returns the parameters, except that `dict_size` below
`0x1000` comes back as `0x1000` and `v = 0xFFFF_FFFF_FFFF_FFFF` comes back
as `None`; with `unpacked_size = None` the writer omits the size field and
reading back under `ReadFromHeader` fails with the header-too-short
error. -/
theorem header_roundtrip (lc lp pb d : Nat) (us : Option Nat)
    (hlc : lc ≤ 8) (hlp : lp ≤ 4) (hpb : pb ≤ 4) (hd : d < 4294967296)
    (hus : ∀ v ∈ us, v < 18446744073709551616) :
    LzmaParams.read_header (LzmaParams.write_header ⟨⟨lc, lp, pb⟩, d, us⟩)
        .ReadFromHeader
      = match us with
        | some v =>
          .ok ⟨⟨lc, lp, pb⟩, if d < 4096 then 4096 else d,
            if v = 18446744073709551615 then none else some v⟩
        | none => .error .HeaderTooShort := by
  have hprops : (lc + 9 * (lp + 5 * pb)) % 256 = lc + 9 * (lp + 5 * pb) :=
    Nat.mod_eq_of_lt (by omega)
  cases us with
  | none =>
    simp only [LzmaParams.write_header, List.cons_append, List.nil_append,
      List.append_nil, u32le, LzmaParams.read_header, readU8, readU32le,
      readU64le, hprops]
    rw [if_neg (show ¬lc + 9 * (lp + 5 * pb) ≥ 225 by omega)]
  | some v =>
    have hv : v < 18446744073709551616 := hus v rfl
    simp only [LzmaParams.write_header, List.cons_append, List.nil_append,
      List.append_nil, u32le, u64le, LzmaParams.read_header, readU8, readU32le,
      readU64le, hprops]
    rw [if_neg (show ¬lc + 9 * (lp + 5 * pb) ≥ 225 by omega)]
    have hD : d % 256 + 256 * (d / 256 % 256) + 65536 * (d / 65536 % 256)
        + 16777216 * (d / 16777216 % 256) = d := by omega
    have hV : v % 256 + 256 * (v / 256 % 256) + 65536 * (v / 65536 % 256)
        + 16777216 * (v / 16777216 % 256) + 4294967296 * (v / 4294967296 % 256)
        + 1099511627776 * (v / 1099511627776 % 256)
        + 281474976710656 * (v / 281474976710656 % 256)
        + 72057594037927936 * (v / 72057594037927936 % 256) = v := by omega
    rw [hD, hV]
    simp only [Except.ok.injEq, LzmaParams.mk.injEq, LzmaProperties.mk.injEq,
      and_true, true_and]
    omega

/-- C1 witness: concrete instances of the amended round-trip, one per
branch, including the dict-size clamp and the sentinel size. -/
theorem header_roundtrip_witness :
    LzmaParams.read_header
        (LzmaParams.write_header ⟨⟨3, 0, 2⟩, 16, some 18446744073709551615⟩)
        .ReadFromHeader
      = .ok ⟨⟨3, 0, 2⟩, 4096, none⟩ := by
  have h := header_roundtrip 3 0 2 16 (some 18446744073709551615)
    (by omega) (by omega) (by omega) (by omega)
    (by intro v hv; cases hv; omega)
  exact h.trans (by decide)

/-- C5: `read_header` rejects every first byte `≥ 225` with the
invalid-properties `LzmaError` (not the header-too-short error), for any
remaining input and any policy; and it accepts every first byte `< 225`,
decomposing it into `lc = b % 9`, `lp = b / 9 % 5`, `pb = b / 45`. -/
theorem invalid_properties_byte (b : Nat) :
    (225 ≤ b → ∀ (rest : List Nat) (opts : Decompress.UnpackedSize),
      LzmaParams.read_header (b :: rest) opts =
        .error (.LzmaError ("LZMA header invalid properties: " ++ toString b
          ++ " must be < 225"))) ∧
    (b < 225 → ∀ (d0 d1 d2 d3 : Nat) (sz : Option Nat),
      LzmaParams.read_header [b, d0, d1, d2, d3] (.UseProvided sz) =
        .ok ⟨⟨b % 9, b / 9 % 5, b / 45⟩,
          if d0 + 256 * d1 + 65536 * d2 + 16777216 * d3 < 4096 then 4096
          else d0 + 256 * d1 + 65536 * d2 + 16777216 * d3, sz⟩) := by
  constructor
  · intro hb rest opts
    simp only [LzmaParams.read_header, readU8]
    rw [if_pos hb]
  · intro hb d0 d1 d2 d3 sz
    simp only [LzmaParams.read_header, readU8, readU32le]
    rw [if_neg (by omega)]
    simp only [Except.ok.injEq, LzmaParams.mk.injEq, LzmaProperties.mk.injEq,
      and_true, true_and]
    omega

/-- C5 witness: byte 230 is rejected as invalid properties; byte 92
(`lc=2, lp=0, pb=2`) is accepted and decomposed. -/
theorem invalid_properties_byte_witness :
    LzmaParams.read_header [230] .ReadFromHeader =
        .error (.LzmaError "LZMA header invalid properties: 230 must be < 225") ∧
      LzmaParams.read_header [92, 0, 0, 0, 0] (.UseProvided none) =
        .ok ⟨⟨2, 0, 2⟩, 4096, none⟩ := by
  constructor
  · exact ((invalid_properties_byte 230).1 (by omega) [] .ReadFromHeader).trans
      (by decide)
  · exact ((invalid_properties_byte 92).2 (by omega) 0 0 0 0 none).trans
      (by decide)

theorem readU32le_short (l : List Nat) (h : l.length < 4) :
    readU32le l = .error .HeaderTooShort := by
  rcases l with _ | ⟨a, _ | ⟨b, _ | ⟨c, _ | ⟨d, t⟩⟩⟩⟩
  · rfl
  · rfl
  · rfl
  · rfl
  · simp at h
    omega

theorem readU64le_short (l : List Nat) (h : l.length < 8) :
    readU64le l = .error .HeaderTooShort := by
  rcases l with _ | ⟨a0, _ | ⟨a1, _ | ⟨a2, _ | ⟨a3, _ | ⟨a4, _ | ⟨a5, _ | ⟨a6, _ | ⟨a7, t⟩⟩⟩⟩⟩⟩⟩⟩
  · rfl
  · rfl
  · rfl
  · rfl
  · rfl
  · rfl
  · rfl
  · rfl
  · simp at h
    omega

/-- C6: the 8-byte unpacked-size field is handled per policy: under
`ReadFromHeader` the eight little-endian bytes are read and yield `None`
exactly at the all-ones sentinel, else `Some`; under
`ReadHeaderButUseProvided` eight bytes are consumed (a 7-byte tail is a
header-too-short error) but the caller's value is returned whatever they
hold; under `UseProvided` no size bytes are read at all (a 5-byte header
suffices) and the caller's value is returned. -/
theorem unpacked_size_policy (p d0 d1 d2 d3 s0 s1 s2 s3 s4 s5 s6 s7 : Nat)
    (x : Option Nat) (hp : p < 225) :
    (LzmaParams.read_header
        [p, d0, d1, d2, d3, s0, s1, s2, s3, s4, s5, s6, s7] .ReadFromHeader).map
        LzmaParams.unpacked_size =
      .ok (if s0 + 256 * s1 + 65536 * s2 + 16777216 * s3 + 4294967296 * s4
            + 1099511627776 * s5 + 281474976710656 * s6
            + 72057594037927936 * s7 = 18446744073709551615 then none
         else some (s0 + 256 * s1 + 65536 * s2 + 16777216 * s3
            + 4294967296 * s4 + 1099511627776 * s5 + 281474976710656 * s6
            + 72057594037927936 * s7)) ∧
    (LzmaParams.read_header
        [p, d0, d1, d2, d3, s0, s1, s2, s3, s4, s5, s6, s7]
        (.ReadHeaderButUseProvided x)).map LzmaParams.unpacked_size = .ok x ∧
    LzmaParams.read_header [p, d0, d1, d2, d3, s0, s1, s2, s3, s4, s5, s6]
        (.ReadHeaderButUseProvided x) = .error .HeaderTooShort ∧
    (LzmaParams.read_header [p, d0, d1, d2, d3] (.UseProvided x)).map
        LzmaParams.unpacked_size = .ok x := by
  have h1 : LzmaParams.read_header
      [p, d0, d1, d2, d3, s0, s1, s2, s3, s4, s5, s6, s7] .ReadFromHeader
      = .ok ⟨⟨p % 9, p / 9 % 5, p / 9 / 5⟩,
          if d0 + 256 * d1 + 65536 * d2 + 16777216 * d3 < 4096 then 4096
          else d0 + 256 * d1 + 65536 * d2 + 16777216 * d3,
          if s0 + 256 * s1 + 65536 * s2 + 16777216 * s3 + 4294967296 * s4
              + 1099511627776 * s5 + 281474976710656 * s6
              + 72057594037927936 * s7 = 18446744073709551615 then none
          else some (s0 + 256 * s1 + 65536 * s2 + 16777216 * s3
            + 4294967296 * s4 + 1099511627776 * s5 + 281474976710656 * s6
            + 72057594037927936 * s7)⟩ := by
    simp only [LzmaParams.read_header, readU8, readU32le, readU64le]
    rw [if_neg (by omega)]
  have h2 : LzmaParams.read_header
      [p, d0, d1, d2, d3, s0, s1, s2, s3, s4, s5, s6, s7]
      (.ReadHeaderButUseProvided x)
      = .ok ⟨⟨p % 9, p / 9 % 5, p / 9 / 5⟩,
          if d0 + 256 * d1 + 65536 * d2 + 16777216 * d3 < 4096 then 4096
          else d0 + 256 * d1 + 65536 * d2 + 16777216 * d3, x⟩ := by
    simp only [LzmaParams.read_header, readU8, readU32le, readU64le]
    rw [if_neg (by omega)]
  have h3 : LzmaParams.read_header [p, d0, d1, d2, d3, s0, s1, s2, s3, s4, s5, s6]
      (.ReadHeaderButUseProvided x) = .error .HeaderTooShort := by
    simp only [LzmaParams.read_header, readU8, readU32le]
    rw [if_neg (by omega)]
    rw [readU64le_short [s0, s1, s2, s3, s4, s5, s6] (by simp)]
  have h4 : LzmaParams.read_header [p, d0, d1, d2, d3] (.UseProvided x)
      = .ok ⟨⟨p % 9, p / 9 % 5, p / 9 / 5⟩,
          if d0 + 256 * d1 + 65536 * d2 + 16777216 * d3 < 4096 then 4096
          else d0 + 256 * d1 + 65536 * d2 + 16777216 * d3, x⟩ := by
    simp only [LzmaParams.read_header, readU8, readU32le]
    rw [if_neg (by omega)]
  rw [h1, h2, h3, h4]
  exact ⟨rfl, rfl, rfl, rfl⟩

/-- C6 witness: concrete instances of all three policies, including the
all-ones sentinel mapping to `None`. -/
theorem unpacked_size_policy_witness :
    (LzmaParams.read_header
        [0, 0, 16, 0, 0, 255, 255, 255, 255, 255, 255, 255, 255]
        .ReadFromHeader).map LzmaParams.unpacked_size = .ok none ∧
      (LzmaParams.read_header
        [0, 0, 16, 0, 0, 255, 255, 255, 255, 255, 255, 255, 255]
        (.ReadHeaderButUseProvided (some 5))).map LzmaParams.unpacked_size
        = .ok (some 5) ∧
      (LzmaParams.read_header [0, 0, 16, 0, 0] (.UseProvided (some 9))).map
        LzmaParams.unpacked_size = .ok (some 9) := by
  obtain ⟨h1, -, -, -⟩ :=
    unpacked_size_policy 0 0 16 0 0 255 255 255 255 255 255 255 255 none
      (by omega)
  obtain ⟨-, h2, -, -⟩ :=
    unpacked_size_policy 0 0 16 0 0 255 255 255 255 255 255 255 255 (some 5)
      (by omega)
  obtain ⟨-, -, -, h4⟩ :=
    unpacked_size_policy 0 0 16 0 0 255 255 255 255 255 255 255 255 (some 9)
      (by omega)
  exact ⟨h1.trans (by decide), h2, h4⟩

/-- C7: for every header whose four little-endian dict-size bytes decode
below `0x1000`, `read_header` succeeds (does not reject) and returns
`dict_size = 0x1000`; for every value at least `0x1000` it returns the
value unchanged — under every unpacked-size policy. -/
theorem dict_size_clamped (p d0 d1 d2 d3 e0 e1 e2 e3 e4 e5 e6 e7 : Nat)
    (opts : Decompress.UnpackedSize) (hp : p < 225) :
    (LzmaParams.read_header
        [p, d0, d1, d2, d3, e0, e1, e2, e3, e4, e5, e6, e7] opts).map
        LzmaParams.dict_size =
      .ok (if d0 + 256 * d1 + 65536 * d2 + 16777216 * d3 < 4096 then 4096
         else d0 + 256 * d1 + 65536 * d2 + 16777216 * d3) := by
  cases opts with
  | ReadFromHeader =>
    have h : LzmaParams.read_header
        [p, d0, d1, d2, d3, e0, e1, e2, e3, e4, e5, e6, e7] .ReadFromHeader
        = .ok ⟨⟨p % 9, p / 9 % 5, p / 9 / 5⟩,
            if d0 + 256 * d1 + 65536 * d2 + 16777216 * d3 < 4096 then 4096
            else d0 + 256 * d1 + 65536 * d2 + 16777216 * d3,
            if e0 + 256 * e1 + 65536 * e2 + 16777216 * e3 + 4294967296 * e4
                + 1099511627776 * e5 + 281474976710656 * e6
                + 72057594037927936 * e7 = 18446744073709551615 then none
            else some (e0 + 256 * e1 + 65536 * e2 + 16777216 * e3
              + 4294967296 * e4 + 1099511627776 * e5 + 281474976710656 * e6
              + 72057594037927936 * e7)⟩ := by
      simp only [LzmaParams.read_header, readU8, readU32le, readU64le]
      rw [if_neg (by omega)]
    rw [h]
    rfl
  | ReadHeaderButUseProvided x =>
    have h : LzmaParams.read_header
        [p, d0, d1, d2, d3, e0, e1, e2, e3, e4, e5, e6, e7]
        (.ReadHeaderButUseProvided x)
        = .ok ⟨⟨p % 9, p / 9 % 5, p / 9 / 5⟩,
            if d0 + 256 * d1 + 65536 * d2 + 16777216 * d3 < 4096 then 4096
            else d0 + 256 * d1 + 65536 * d2 + 16777216 * d3, x⟩ := by
      simp only [LzmaParams.read_header, readU8, readU32le, readU64le]
      rw [if_neg (by omega)]
    rw [h]
    rfl
  | UseProvided x =>
    have h : LzmaParams.read_header
        [p, d0, d1, d2, d3, e0, e1, e2, e3, e4, e5, e6, e7] (.UseProvided x)
        = .ok ⟨⟨p % 9, p / 9 % 5, p / 9 / 5⟩,
            if d0 + 256 * d1 + 65536 * d2 + 16777216 * d3 < 4096 then 4096
            else d0 + 256 * d1 + 65536 * d2 + 16777216 * d3, x⟩ := by
      simp only [LzmaParams.read_header, readU8, readU32le]
      rw [if_neg (by omega)]
    rw [h]
    rfl

/-- C7 witness: dict-size 16 is clamped to 4096; dict-size 4097 passes
through unchanged. -/
theorem dict_size_clamped_witness :
    (LzmaParams.read_header
        [0, 16, 0, 0, 0, 0, 0, 0, 0, 0, 0, 0, 0] .ReadFromHeader).map
        LzmaParams.dict_size = .ok 4096 ∧
    (LzmaParams.read_header
        [0, 1, 16, 0, 0, 0, 0, 0, 0, 0, 0, 0, 0] .ReadFromHeader).map
        LzmaParams.dict_size = .ok 4097 := by
  constructor
  · exact (dict_size_clamped 0 16 0 0 0 0 0 0 0 0 0 0 0 .ReadFromHeader
      (by omega)).trans (by decide)
  · exact (dict_size_clamped 0 1 16 0 0 0 0 0 0 0 0 0 0 .ReadFromHeader
      (by omega)).trans (by decide)

/-- C8: whenever the input is exhausted before the header fields demanded
by the active policy are fully read (1 properties byte + 4 dict bytes,
plus 8 size bytes under the header-inclusive policies), and the
properties byte itself is not invalid, `read_header` fails with the
distinct header-too-short error. -/
theorem header_too_short (input : List Nat) (opts : Decompress.UnpackedSize)
    (hlen : input.length < requiredHeaderLen opts)
    (hhead : input.head?.getD 0 < 225) :
    LzmaParams.read_header input opts = .error .HeaderTooShort := by
  rcases input with _ | ⟨b, rest⟩
  · rfl
  · have hb : b < 225 := by simpa using hhead
    simp only [LzmaParams.read_header, readU8]
    rw [if_neg (by omega)]
    by_cases h4 : rest.length < 4
    · rw [readU32le_short rest h4]
    · push_neg at h4
      rcases rest with _ | ⟨c0, _ | ⟨c1, _ | ⟨c2, _ | ⟨c3, t⟩⟩⟩⟩
      · simp at h4
      · simp at h4
      · simp at h4
      · simp at h4
      · cases opts with
        | ReadFromHeader =>
          simp only [readU32le]
          rw [readU64le_short t (by simp [requiredHeaderLen] at hlen; omega)]
        | ReadHeaderButUseProvided x =>
          simp only [readU32le]
          rw [readU64le_short t (by simp [requiredHeaderLen] at hlen; omega)]
        | UseProvided x =>
          simp [requiredHeaderLen] at hlen
          omega

/-- C8 witness: a two-byte input with a valid properties byte is rejected
as header-too-short under `ReadFromHeader`. -/
theorem header_too_short_witness :
    LzmaParams.read_header [1, 2] .ReadFromHeader = .error .HeaderTooShort :=
  header_too_short [1, 2] .ReadFromHeader (by decide) (by decide)

theorem read_header_valid_components (b dsz : Nat) (us : Option Nat)
    (hb : b < 225) :
    (⟨⟨b % 9, b / 9 % 5, b / 9 / 5⟩, if dsz < 4096 then 4096 else dsz, us⟩ :
        LzmaParams).properties.lc ≤ 8 ∧
      (⟨⟨b % 9, b / 9 % 5, b / 9 / 5⟩, if dsz < 4096 then 4096 else dsz, us⟩ :
        LzmaParams).properties.lp ≤ 4 ∧
      (⟨⟨b % 9, b / 9 % 5, b / 9 / 5⟩, if dsz < 4096 then 4096 else dsz, us⟩ :
        LzmaParams).properties.pb ≤ 4 ∧
      (⟨⟨b % 9, b / 9 % 5, b / 9 / 5⟩, if dsz < 4096 then 4096 else dsz, us⟩ :
        LzmaParams).properties.validate = true ∧
      4096 ≤ (⟨⟨b % 9, b / 9 % 5, b / 9 / 5⟩, if dsz < 4096 then 4096 else dsz,
        us⟩ : LzmaParams).dict_size := by
  refine ⟨by dsimp only; omega, by dsimp only; omega, by dsimp only; omega,
    ?_, ?_⟩
  · dsimp only
    simp only [LzmaProperties.validate, Bool.and_eq_true, decide_eq_true_eq]
    refine ⟨⟨?_, ?_⟩, ?_⟩ <;> omega
  · dsimp only
    split <;> omega

/-- C9: every `LzmaParams` value successfully returned by `read_header`
satisfies `lc ≤ 8`, `lp ≤ 4`, `pb ≤ 4` (so `validate` passes) and
`dict_size ≥ 0x1000`. -/
theorem read_header_params_valid (input : List Nat)
    (opts : Decompress.UnpackedSize) (q : LzmaParams)
    (h : LzmaParams.read_header input opts = .ok q) :
    q.properties.lc ≤ 8 ∧ q.properties.lp ≤ 4 ∧ q.properties.pb ≤ 4 ∧
      q.properties.validate = true ∧ 4096 ≤ q.dict_size := by
  rcases input with _ | ⟨b, rest⟩
  · exact Except.noConfusion h
  · simp only [LzmaParams.read_header, readU8] at h
    split at h
    · exact Except.noConfusion h
    · split at h
      · exact Except.noConfusion h
      · split at h
        · split at h
          · exact Except.noConfusion h
          · injection h with h
            subst h
            exact read_header_valid_components _ _ _ (by omega)
        · split at h
          · exact Except.noConfusion h
          · injection h with h
            subst h
            exact read_header_valid_components _ _ _ (by omega)
        · injection h with h
          subst h
          exact read_header_valid_components _ _ _ (by omega)

/-- C9 witness: the invariant at a concrete successfully parsed header. -/
theorem read_header_params_valid_witness :
    (⟨⟨0, 0, 0⟩, 4096, none⟩ : LzmaParams).properties.lc ≤ 8 ∧
      (⟨⟨0, 0, 0⟩, 4096, none⟩ : LzmaParams).properties.lp ≤ 4 ∧
      (⟨⟨0, 0, 0⟩, 4096, none⟩ : LzmaParams).properties.pb ≤ 4 ∧
      (⟨⟨0, 0, 0⟩, 4096, none⟩ : LzmaParams).properties.validate = true ∧
      4096 ≤ (⟨⟨0, 0, 0⟩, 4096, none⟩ : LzmaParams).dict_size :=
  read_header_params_valid [0, 0, 0, 0, 0] (.UseProvided none)
    ⟨⟨0, 0, 0⟩, 4096, none⟩ (by decide)

/-- C10 witness: all decisions of a concrete encoding are in bounds. -/
theorem encoder_accesses_inBounds_witness :
    ((Encoder.process (.WriteToHeader none) [65, 255]).all Decision.inBounds) = true := by
  rw [List.all_eq_true]
  exact fun d hd =>
    encoder_accesses_inBounds (.WriteToHeader none) [65, 255] (by decide) d hd

end Lzma
